import Mathlib

/-!
Verification of the command-execution core and the modal line editor of an
interactive POSIX-style shell, against its natural-language specification.

Bytes are modelled as natural numbers (the values that occur are < 256);
characters as Lean `Char`.  Fallible or panicking operations return `Option`
(`none` models a panic or abort).  Hash maps are modelled as association
lists; the only operations the code performs on them here are lookup,
insert and remove, for which association lists are observationally adequate.
-/

namespace Shell

/-! ## Tilde expansion (expand_tilde, src/core/mod.rs)

The source reads the token's first byte; on a tilde (byte 126) it evaluates
`std::env::var_os("HOME").unwrap_or_else(|| todo!())`: when `HOME` is unset
the `todo!()` macro panics.  The `HOME` variable is passed explicitly as an
`Option`; a panic is modelled as the result `none`. -/

def expand_tilde (home : Option (List Nat)) (bytes : List Nat) : Option (List Nat) :=
  if bytes.head? = some 126 then
    match home with
    | none => none
    | some h => some (h ++ bytes.tail)
  else
    some bytes

/-! ## Job table (src/core/mod.rs) -/

/-- Per-process record of a job member: pid, stopped flag, and the
exit-or-signal status, absent while the process is running. -/
structure Process where
  pid : Nat
  stopped : Bool
  status : Option Int
deriving Repr, DecidableEq

/-- Process.is_completed from the source: a process is completed when its
status field has been filled in. -/
def Process.is_completed (p : Process) : Bool :=
  p.status.isSome

/-- A job: interactive flag, optional process-group id, member processes
(the values of the pid-keyed map), and the last observed status.  The saved
terminal attributes are irrelevant to the claims and omitted from the model
(no claim mentions them). -/
structure Job where
  interactive : Bool
  pgid : Option Nat
  members : List Process
  last_status : Option Int
deriving Repr, DecidableEq

/-- Job.is_stopped from the source: every member is completed or stopped. -/
def Job.is_stopped (j : Job) : Bool :=
  j.members.all fun p => p.is_completed || p.stopped

/-- Job.is_completed from the source: every member is completed. -/
def Job.is_completed (j : Job) : Bool :=
  j.members.all fun p => p.is_completed

/-- The job value built by eval_command for a builtin command: the builtin
runs synchronously in the shell, so no member process is ever inserted;
the job receives the shell's pgid and the builtin's status. -/
def builtinJob (shellPgid : Nat) (status : Int) : Job :=
  { interactive := true
    pgid := some shellPgid
    members := []
    last_status := some status }

/-! ## Glob segment matcher (globMatches, src/core/mod.rs) -/

/-- Model of the function named "matches" in expand_pattern ("matches" is a reserved word in Lean).  A pattern
byte 42 is the ASCII asterisk.  The source tries, in order: empty pattern
against empty or non-empty name; a leading asterisk, looping the start
offset i over 0..=name.len(); equal leading bytes; and otherwise fails. -/
def globMatches (pat name : List Nat) : Bool :=
  match pat, name with
  | [], [] => true
  | [], _ :: _ => false
  | ch1 :: pat_tail, name =>
    if ch1 = 42 then
      (List.range (name.length + 1)).any fun i => globMatches pat_tail (List.drop i name)
    else
      match name with
      | ch2 :: name_tail => if ch1 = ch2 then globMatches pat_tail name_tail else false
      | [] => false

/-- The specification's reference definition of glob segment matching, as a
derivation system: the empty pattern accepts exactly the empty name; a
pattern beginning with an asterisk accepts a name iff its rest accepts some
suffix of the name; a pattern beginning with any other byte accepts iff the
name begins with the same byte and its rest accepts the name's tail. -/
inductive MatchesSpec : List Nat → List Nat → Prop
  | nil : MatchesSpec [] []
  | star (pat_tail name : List Nat) (i : Nat) (hi : i ≤ name.length)
      (h : MatchesSpec pat_tail (List.drop i name)) :
      MatchesSpec (42 :: pat_tail) name
  | cons (c : Nat) (hc : c ≠ 42) (pat_tail tail : List Nat)
      (h : MatchesSpec pat_tail tail) :
      MatchesSpec (c :: pat_tail) (c :: tail)

theorem matches_nil (name : List Nat) : globMatches [] name = name.isEmpty := by
  cases name <;> simp [globMatches]

theorem matches_star (pat_tail name : List Nat) :
    globMatches (42 :: pat_tail) name =
      (List.range (name.length + 1)).any fun i => globMatches pat_tail (List.drop i name) := by
  cases name <;> simp [globMatches]

theorem matches_cons (c : Nat) (hc : c ≠ 42) (pat_tail : List Nat) (name : List Nat) :
    globMatches (c :: pat_tail) name =
      match name with
      | ch2 :: name_tail => if c = ch2 then globMatches pat_tail name_tail else false
      | [] => false := by
  cases name <;> simp [globMatches, hc]

/-- C4: for all byte strings pat and name, the executable glob segment
matcher agrees with the specification's recursive reference definition. -/
theorem globMatches_iff_spec (pat name : List Nat) :
    globMatches pat name = true ↔ MatchesSpec pat name := by
  induction pat generalizing name with
  | nil =>
    rw [matches_nil]
    cases name with
    | nil => simpa using MatchesSpec.nil
    | cons a l =>
      simp only [List.isEmpty_cons, Bool.false_eq_true, false_iff]
      intro h
      cases h
  | cons c pt ih =>
    by_cases hc : c = 42
    · subst hc
      rw [matches_star]
      constructor
      · intro h
        rcases List.any_eq_true.mp h with ⟨i, hi, hmi⟩
        exact MatchesSpec.star pt name i (Nat.lt_succ_iff.mp (List.mem_range.mp hi))
          ((ih _).mp hmi)
      · intro h
        cases h with
        | star pat_tail name i hi hspec =>
          exact List.any_eq_true.mpr
            ⟨i, List.mem_range.mpr (Nat.lt_succ_of_le hi), (ih _).mpr hspec⟩
        | cons c hc' pat_tail tail hspec => exact absurd rfl hc'
    · rw [matches_cons c hc]
      cases name with
      | nil =>
        show false = true ↔ MatchesSpec (c :: pt) []
        simp only [Bool.false_eq_true, false_iff]
        intro h
        cases h with
        | star _ _ i hi hspec => exact absurd rfl hc
      | cons c2 nt =>
        show (if c = c2 then globMatches pt nt else false) = true ↔
          MatchesSpec (c :: pt) (c2 :: nt)
        by_cases he : c = c2
        · subst he
          rw [if_pos rfl, ih nt]
          constructor
          · exact fun h => MatchesSpec.cons c hc pt nt h
          · intro h
            cases h with
            | star _ _ i hi hspec => exact absurd rfl hc
            | cons _ _ _ _ hspec => exact hspec
        · rw [if_neg he]
          simp only [Bool.false_eq_true, false_iff]
          intro h
          cases h with
          | star _ _ i hi hspec => exact absurd rfl hc
          | cons _ _ _ _ hspec => exact absurd rfl he

/-! ## Claim C2: Job.is_stopped -/

/-- C2 counterexample: the job created for a builtin command has an empty
member map, yet is_stopped returns true for it, even though it has no
member at all that is stopped and not completed.  The claim, which requires
at least one stopped-not-completed member whenever is_stopped is true,
therefore fails on this job value. -/
theorem is_stopped_empty_members_cex :
    (builtinJob 100 0).is_stopped = true ∧
      (builtinJob 100 0).members.all (fun p => p.stopped && !p.is_completed) = true ∧
      (builtinJob 100 0).members = [] := by
  decide

/-- C2 amended: is_stopped holds iff every member is completed-or-stopped
(with no further requirement, so it holds vacuously for a job with no
members or with all members completed); for a job that is stopped but not
completed — the only jobs the wait loop leaves in the table — no member is
still running and at least one member is stopped and not completed. -/
theorem is_stopped_characterization (j : Job) (hs : j.is_stopped = true)
    (hnc : j.is_completed = false) :
    (∀ p ∈ j.members, p.is_completed = true ∨ p.stopped = true) ∧
      ∃ p ∈ j.members, p.stopped = true ∧ p.is_completed = false := by
  constructor
  · intro p hp
    have := List.all_eq_true.mp hs p hp
    rcases Bool.or_eq_true _ _ |>.mp this with h | h
    · exact Or.inl h
    · exact Or.inr h
  · have : ¬ ∀ p ∈ j.members, p.is_completed = true := by
      intro hall
      have : j.is_completed = true := List.all_eq_true.mpr hall
      rw [hnc] at this
      exact Bool.false_ne_true this
    push_neg at this
    rcases this with ⟨p, hp, hpc⟩
    have hs' := List.all_eq_true.mp hs p hp
    rcases Bool.or_eq_true _ _ |>.mp hs' with h | h
    · exact absurd h hpc
    · exact ⟨p, hp, h, Bool.eq_false_iff.mpr hpc⟩

/-- Witness for is_stopped_characterization at a concrete job with one
stopped, uncompleted member. -/
theorem is_stopped_characterization_witness :
    (∀ p ∈ (Job.mk true (some 7) [Process.mk 7 true none] none).members,
        p.is_completed = true ∨ p.stopped = true) ∧
      ∃ p ∈ (Job.mk true (some 7) [Process.mk 7 true none] none).members,
        p.stopped = true ∧ p.is_completed = false :=
  is_stopped_characterization (Job.mk true (some 7) [Process.mk 7 true none] none)
    (by decide) (by decide)

/-! ## Claim C1: tilde expansion and an unset HOME

The Rust signature of expand_tilde is `fn(&[u8]) -> Vec<u8>`: it has no
failure channel, so the only possible outcomes are a returned byte vector
(`some`) or a panic (`none`), and the `none` below can only arise from the
`todo!()` placeholder. -/

/-- C1 (code bug): on a token beginning with a tilde while HOME is unset,
expand_tilde panics (the todo placeholder), which the specification
explicitly forbids; with HOME set it prepends HOME and drops the tilde, and
a token not beginning with a tilde is returned unchanged even when HOME is
unset. -/
theorem expand_tilde_home_unset_panics :
    expand_tilde none [126] = none ∧
      expand_tilde (some [47, 104]) [126, 47, 120] = some [47, 104, 47, 120] ∧
      expand_tilde none [120, 126] = some [120, 126] := by
  decide

/-! ## Raw (unquoted) string characters (raw_char, src/core/ast.rs)

The PEG rule raw_char has four ordered alternatives:
1. a backslash followed by any character of the escapable metaset;
2. any character outside a forbidden set — which, unlike the escapable
   set, does NOT contain the asterisk;
3. an equals sign not followed by an opening parenthesis;
4. a question mark not followed by an opening parenthesis.
Each alternative consumes from the front of the input and yields the parsed
character plus the remaining input; `none` means the rule fails. -/

/-- The escapable character set of raw_char's first alternative. -/
def rawEscapeSet : List Char :=
  ['\\', ' ', '\t', '\n', '@', ';', '&', '|', '$', '(', ')', '[', ']',
   '\x27', '\x22', '=', '?', '\x7b', '\x7d', '*']

/-- The forbidden character set of raw_char's second alternative.  It is
the escapable set without the asterisk. -/
def rawForbidSet : List Char :=
  ['\\', ' ', '\t', '\n', '@', ';', '&', '|', '$', '(', ')', '[', ']',
   '\x27', '\x22', '=', '?', '\x7b', '\x7d']

/-- First alternative: a backslash followed by an escapable character. -/
def rawCharAlt1 : List Char → Option (Char × List Char)
  | b :: c :: rest => if b = '\\' ∧ c ∈ rawEscapeSet then some (c, rest) else none
  | _ => none

/-- Second alternative: any character not in the forbidden set. -/
def rawCharAlt2 : List Char → Option (Char × List Char)
  | c :: rest => if c ∈ rawForbidSet then none else some (c, rest)
  | [] => none

/-- Third alternative: an equals sign, with a negative lookahead refusing
the two-character sequence of equals and opening parenthesis. -/
def rawCharAlt3 : List Char → Option (Char × List Char)
  | c :: rest =>
    if c = '=' ∧ rest.head? ≠ some '(' then some (c, rest) else none
  | [] => none

/-- Fourth alternative: a question mark, with a negative lookahead refusing
the two-character sequence of question mark and opening parenthesis. -/
def rawCharAlt4 : List Char → Option (Char × List Char)
  | c :: rest =>
    if c = '?' ∧ rest.head? ≠ some '(' then some (c, rest) else none
  | [] => none

/-- The raw_char rule: the four alternatives tried in order. -/
def rawChar (input : List Char) : Option (Char × List Char) :=
  match rawCharAlt1 input with
  | some r => some r
  | none =>
    match rawCharAlt2 input with
    | some r => some r
    | none =>
      match rawCharAlt3 input with
      | some r => some r
      | none => rawCharAlt4 input

/-- C3 counterexample: an unescaped asterisk IS accepted by raw_char as a
literal character (the forbidden set of the unescaped alternative omits
the asterisk, so glob patterns survive parsing), contradicting the claim
that every unescaped metaset character, in particular the asterisk, is
rejected. -/
theorem rawChar_accepts_unescaped_star_cex :
    rawChar ['*'] = some ('*', []) ∧ '*' ∈ rawEscapeSet ∧ '*' ∉ rawForbidSet := by
  decide

/-- C3 amended: the single description of raw_char that the ordered
alternatives implement.  A backslash escapes any character of the metaset
(asterisk included); an unescaped character is accepted iff it is not in
the metaset-minus-asterisk — so an unescaped asterisk is accepted — except
that equals and question mark are additionally accepted when not followed
by an opening parenthesis. -/
def rawCharSpec (input : List Char) : Option (Char × List Char) :=
  match input with
  | [] => none
  | c :: rest =>
    if c = '\\' then
      match rest with
      | c2 :: rest2 => if c2 ∈ rawEscapeSet then some (c2, rest2) else none
      | [] => none
    else if c ∉ rawForbidSet then
      some (c, rest)
    else if (c = '=' ∨ c = '?') ∧ rest.head? ≠ some '(' then
      some (c, rest)
    else
      none

/-- C3 amended, formally: the ordered PEG alternatives of raw_char are
extensionally equal to the single-description amendment. -/
theorem rawChar_eq_spec (input : List Char) : rawChar input = rawCharSpec input := by
  match input with
  | [] => rfl
  | c :: rest =>
    by_cases hb : c = '\\'
    · subst hb
      have hbf : ('\\' : Char) ∈ rawForbidSet := by decide
      have hbe : ('\\' : Char) ≠ '=' := by decide
      have hbq : ('\\' : Char) ≠ '?' := by decide
      match rest with
      | [] =>
        simp [rawChar, rawCharAlt1, rawCharAlt2, rawCharAlt3, rawCharAlt4,
          rawCharSpec, hbf, hbe, hbq]
      | c2 :: rest2 =>
        by_cases he : c2 ∈ rawEscapeSet
        · simp [rawChar, rawCharAlt1, rawCharSpec, he]
        · simp [rawChar, rawCharAlt1, rawCharAlt2, rawCharAlt3, rawCharAlt4,
            rawCharSpec, he, hbf, hbe, hbq]
    · by_cases hf : c ∈ rawForbidSet
      · have halt1 : rawCharAlt1 (c :: rest) = none := by
          match rest with
          | [] => rfl
          | c2 :: rest2 => simp [rawCharAlt1, hb]
        by_cases heq : (c = '=' ∨ c = '?') ∧ rest.head? ≠ some '('
        · rcases heq with ⟨hc, hla⟩
          rcases hc with hc | hc <;> subst hc <;>
            simp [rawChar, halt1, rawCharAlt2, rawCharAlt3, rawCharAlt4,
              rawCharSpec, hf, hla, hb]
        · by_cases hc : c = '='
          · subst hc
            have hla : rest.head? = some '(' := by
              by_contra hla
              exact heq ⟨Or.inl rfl, hla⟩
            simp [rawChar, halt1, rawCharSpec, rawCharAlt2, rawCharAlt3,
              rawCharAlt4, hf, hla, heq, hb]
          · by_cases hq : c = '?'
            · subst hq
              have hla : rest.head? = some '(' := by
                by_contra hla
                exact heq ⟨Or.inr rfl, hla⟩
              simp [rawChar, halt1, rawCharSpec, rawCharAlt2, rawCharAlt3,
                rawCharAlt4, hf, hla, heq, hb]
            · simp [rawChar, halt1, rawCharSpec, rawCharAlt2, rawCharAlt3,
                rawCharAlt4, hf, hc, hq, heq, hb]
      · have halt1 : rawCharAlt1 (c :: rest) = none := by
          match rest with
          | [] => rfl
          | c2 :: rest2 => simp [rawCharAlt1, hb]
        simp [rawChar, halt1, rawCharAlt2, rawCharSpec, hf, hb]

/-! ## Command substitution post-processing (eval_str, src/core/mod.rs)

After forking the substitution child and redirecting the chosen stream into
a pipe, the parent reads at most ARG_SIZE_LIMIT bytes of the captured
output, waits for the child, and then runs a byte loop over the captured
bytes against the token buffer built so far, followed by popping one
trailing space of the whole buffer.  The pipe read and the waitpid are I/O;
the byte processing below is their pure continuation, taking the child's
captured output as an oracle argument. -/

/-- The whitespace test of the substitution loop: space, newline or tab. -/
def isSubstWs (b : Nat) : Bool :=
  b == 32 || b == 10 || b == 9

/-- ARG_SIZE_LIMIT from the source: the 2 MiB read cap. -/
def ARG_SIZE_LIMIT : Nat := 0x200000

/-- One iteration of the substitution byte loop: a whitespace byte pushes a
single space unless the buffer already ends with a space; any other byte is
pushed as-is. -/
def substPush (buf : List Nat) (byte : Nat) : List Nat :=
  if isSubstWs byte then
    if buf.getLast? = some 32 then buf else buf ++ [32]
  else
    buf ++ [byte]

/-- The substitution byte loop over all captured bytes. -/
def substAppendLoop (buf arg : List Nat) : List Nat :=
  arg.foldl substPush buf

/-- The complete pure post-processing of one command substitution: truncate
the captured output at the read cap, run the byte loop, then pop one
trailing space of the whole buffer. -/
def substAppend (buf childOutput : List Nat) : List Nat :=
  let argBuf := childOutput.take ARG_SIZE_LIMIT
  let buf2 := substAppendLoop buf argBuf
  if buf2.getLast? = some 32 then buf2.dropLast else buf2

/-- C5 counterexample: a buffer ending in a space contributed by earlier
parts of the same string, followed by a substitution whose captured output
is empty, loses that space — the final trailing-space pop applies to the
whole buffer, not only to the bytes the substitution contributed, so the
bytes contributed by earlier parts do not remain unchanged. -/
theorem substAppend_clobbers_earlier_bytes_cex :
    substAppend [97, 32] [] = [97] ∧
      List.isPrefixOf [97, 32] (substAppend [97, 32] []) = false := by
  decide

theorem dropWhile_length_le (p : Nat → Bool) (l : List Nat) :
    (l.dropWhile p).length ≤ l.length := by
  induction l with
  | nil => simp [List.dropWhile]
  | cons a t ih =>
    rw [List.dropWhile_cons]
    by_cases hp : p a
    · rw [if_pos hp]
      exact le_trans ih (Nat.le_succ _)
    · rw [if_neg hp]

/-- Collapse every maximal run of ASCII whitespace into a single space
(the wording of the specification). -/
def collapseWs : List Nat → List Nat
  | [] => []
  | b :: rest =>
    if isSubstWs b then
      32 :: collapseWs (rest.dropWhile fun x => isSubstWs x)
    else
      b :: collapseWs rest
termination_by l => l.length
decreasing_by
  · exact Nat.lt_succ_of_le (dropWhile_length_le _ _)
  · exact Nat.lt_succ_self _

/-- Append the collapsed output to the buffer, merging a leading space of
the output with an existing trailing space of the buffer. -/
def mergeAppend (buf s : List Nat) : List Nat :=
  if s.head? = some 32 ∧ buf.getLast? = some 32 then buf ++ s.tail else buf ++ s

/-- Trim one trailing space of the whole token. -/
def trimTrailingSpace (l : List Nat) : List Nat :=
  if l.getLast? = some 32 then l.dropLast else l

theorem dropWhile_head_not (p : Nat → Bool) (l : List Nat) (x : Nat)
    (h : (l.dropWhile p).head? = some x) : p x = false := by
  induction l with
  | nil => simp [List.dropWhile] at h
  | cons a t ih =>
    rw [List.dropWhile_cons] at h
    by_cases hp : p a
    · rw [if_pos hp] at h
      exact ih h
    · rw [if_neg hp] at h
      simp at h
      rw [← h]
      exact Bool.eq_false_iff.mpr hp

theorem substAppendLoop_skip_ws (buf arg : List Nat)
    (h : buf.getLast? = some 32) :
    substAppendLoop buf arg = substAppendLoop buf (arg.dropWhile fun x => isSubstWs x) := by
  induction arg with
  | nil => rfl
  | cons b rest ih =>
    by_cases hw : isSubstWs b
    · have : substAppendLoop buf (b :: rest) = substAppendLoop buf rest := by
        show substAppendLoop (substPush buf b) rest = substAppendLoop buf rest
        rw [substPush, if_pos hw, if_pos h]
      rw [this, List.dropWhile_cons, if_pos hw, ih]
    · rw [List.dropWhile_cons, if_neg hw]

theorem collapseWs_head_ne_space (l : List Nat)
    (h : ∀ x, l.head? = some x → isSubstWs x = false) :
    (collapseWs l).head? ≠ some 32 := by
  match l with
  | [] => simp [collapseWs]
  | b :: rest =>
    have hb : isSubstWs b = false := h b (by simp)
    rw [collapseWs, if_neg (Bool.eq_false_iff.mp hb)]
    intro hc
    simp at hc
    subst hc
    simp [isSubstWs] at hb

theorem substAppendLoop_eq_mergeAppend (n : Nat) :
    ∀ arg : List Nat, arg.length ≤ n → ∀ buf : List Nat,
      substAppendLoop buf arg = mergeAppend buf (collapseWs arg) := by
  induction n with
  | zero =>
    intro arg harg buf
    have : arg = [] := List.length_eq_zero.mp (Nat.le_zero.mp harg)
    subst this
    simp [substAppendLoop, collapseWs, mergeAppend]
  | succ m ih =>
    intro arg harg buf
    match arg with
    | [] => simp [substAppendLoop, collapseWs, mergeAppend]
    | b :: rest =>
      have hrest : rest.length ≤ m := by simpa using harg
      by_cases hw : isSubstWs b
      · -- whitespace head: the whole leading run contributes one space,
        -- merged with an existing trailing space of the buffer
        set bufP : List Nat := if buf.getLast? = some 32 then buf else buf ++ [32] with hbufP
        have hstep : substAppendLoop buf (b :: rest) = substAppendLoop bufP rest := by
          show substAppendLoop (substPush buf b) rest = substAppendLoop bufP rest
          rw [substPush, if_pos hw]
        have hlastP : bufP.getLast? = some 32 := by
          rw [hbufP]
          by_cases hl : buf.getLast? = some 32
          · rw [if_pos hl]
            exact hl
          · rw [if_neg hl]
            simp
        have hdrop : (rest.dropWhile fun x => isSubstWs x).length ≤ m :=
          le_trans (dropWhile_length_le _ _) hrest
        have hmerge :
            mergeAppend bufP (collapseWs (rest.dropWhile fun x => isSubstWs x)) =
              bufP ++ collapseWs (rest.dropWhile fun x => isSubstWs x) := by
          rw [mergeAppend, if_neg]
          intro hcontra
          exact collapseWs_head_ne_space _
            (fun x hx => dropWhile_head_not _ _ _ hx) hcontra.1
        rw [hstep, substAppendLoop_skip_ws bufP rest hlastP,
          ih _ hdrop bufP, hmerge]
        rw [collapseWs, if_pos hw, mergeAppend]
        by_cases hl : buf.getLast? = some 32
        · rw [if_pos (by simp [hl])]
          simp [hbufP, if_pos hl]
        · rw [if_neg (by simp [hl])]
          simp [hbufP, if_neg hl]
      · -- non-whitespace head: the byte is appended verbatim
        have hstep : substAppendLoop buf (b :: rest) = substAppendLoop (buf ++ [b]) rest := by
          show substAppendLoop (substPush buf b) rest = substAppendLoop (buf ++ [b]) rest
          rw [substPush, if_neg (by simpa using hw)]
        have hb32 : b ≠ 32 := by
          intro hc
          subst hc
          simp [isSubstWs] at hw
        rw [hstep, ih _ hrest (buf ++ [b]), collapseWs,
          if_neg (by simpa using hw)]
        have h1 : ¬ ((collapseWs rest).head? = some 32 ∧
            (buf ++ [b]).getLast? = some 32) := by
          intro hcontra
          have h2 := hcontra.2
          simp at h2
          exact hb32 h2
        have h2 : ¬ ((b :: collapseWs rest).head? = some 32 ∧
            buf.getLast? = some 32) := by
          intro hcontra
          have h1' := hcontra.1
          simp at h1'
          exact hb32 h1'
        rw [mergeAppend, mergeAppend, if_neg h1, if_neg h2]
        simp

/-- C5 amended: the substitution appends the captured output truncated at
the 2 MiB cap with every maximal whitespace run collapsed into a single
space, a leading space of the collapsed output merging with an existing
trailing space of the token, and then one trailing space of the WHOLE
token is trimmed — so a trailing space contributed by earlier parts of the
same string can be removed, and apart from that single byte the earlier
bytes remain unchanged. -/
theorem substAppend_eq_collapse_trim (buf childOutput : List Nat) :
    substAppend buf childOutput =
      trimTrailingSpace
        (mergeAppend buf (collapseWs (childOutput.take ARG_SIZE_LIMIT))) := by
  rw [substAppend, trimTrailingSpace,
    substAppendLoop_eq_mergeAppend (childOutput.take ARG_SIZE_LIMIT).length _
      (le_refl _) buf]

/-! ## String evaluation (eval_str, src/core/mod.rs)

The variable maps of Env.  The source stores them in hash maps keyed by
OsString; they are modelled as association lists with the same lookup
semantics (at most one binding per key is ever observed). -/

structure Env where
  env_vars : List (String × List Nat)
  shell_vars : List (String × List Nat)
deriving Repr, DecidableEq

/-- A part of a parsed string, as consumed by the eval_str loop.  Chars
carries literal bytes.  Variable carries the name of a `$name` expansion.
Subst carries the byte stream the substitution child wrote into the pipe
(modelling all three capture variants, whose parent-side processing is
identical); the child's behaviour is an oracle of the model. -/
inductive StrPart where
  | Chars : List Nat → StrPart
  | Variable : String → StrPart
  | Subst : List Nat → StrPart
deriving Repr, DecidableEq

/-- One iteration of the eval_str loop: the contribution of a single part
appended to the token buffer built so far. -/
def stepPart (env : Env) (buf : List Nat) : StrPart → List Nat
  | .Chars s => buf ++ s
  | .Variable name =>
    match env.shell_vars.lookup name with
    | some value => buf ++ value
    | none =>
      match env.env_vars.lookup name with
      | some value => buf ++ value
      | none => buf
  | .Subst out => substAppend buf out

/-- The eval_str loop over all parts of a string (tilde and glob expansion
are applied to the finished token afterwards; they are modelled by
expand_tilde above and are not part of this loop). -/
def evalStrLoop (env : Env) (buf : List Nat) : List StrPart → List Nat
  | [] => buf
  | p :: rest => evalStrLoop env (stepPart env buf p) rest

/-- C6: evaluating a variable expansion contributes exactly the
shell-variable value when the name is bound in shell_vars, otherwise
exactly the environment-variable value when bound in env_vars, otherwise
nothing — the bytes already in the buffer are kept and the contribution
never mixes the two maps. -/
theorem eval_variable_lookup (env : Env) (buf : List Nat) (name : String) :
    (∀ v, env.shell_vars.lookup name = some v →
      stepPart env buf (StrPart.Variable name) = buf ++ v) ∧
    (env.shell_vars.lookup name = none →
      ∀ v, env.env_vars.lookup name = some v →
        stepPart env buf (StrPart.Variable name) = buf ++ v) ∧
    (env.shell_vars.lookup name = none →
      env.env_vars.lookup name = none →
        stepPart env buf (StrPart.Variable name) = buf) := by
  refine ⟨?_, ?_, ?_⟩
  · intro v hv
    simp [stepPart, hv]
  · intro hs v hv
    simp [stepPart, hs, hv]
  · intro hs he
    simp [stepPart, hs, he]

/-- Witness for eval_variable_lookup: a name bound in both maps takes the
shell-variable value, and an unbound name contributes nothing. -/
theorem eval_variable_lookup_witness :
    stepPart (Env.mk [("X", [101])] [("X", [115])]) [98] (StrPart.Variable "X") =
        [98] ++ [115] ∧
      stepPart (Env.mk [("X", [101])] []) [98] (StrPart.Variable "Y") = [98] :=
  ⟨(eval_variable_lookup (Env.mk [("X", [101])] [("X", [115])]) [98] "X").1
      [115] (by decide),
    (eval_variable_lookup (Env.mk [("X", [101])] []) [98] "Y").2.2
      (by decide) (by decide)⟩

/-! ## The cd builtin (builtin_cd, src/core/builtins.rs)

Paths are byte strings.  The filesystem is an oracle: chdirOk tells whether
set_current_dir succeeds on a path, resolve gives the canonical current
directory reported by getcwd right after a successful chdir, and old_cwd is
the result of current_dir() at entry (None when it fails).  Environment
updates (set_env) prepend the binding; lookup takes the newest binding, so
this models hash-map insertion. -/

/-- The cd-relevant shell state: the exported variable map (holding PWD and
OLDPWD) and the two directory stacks. -/
structure CdState where
  env_vars : List (String × List Nat)
  cd_undo_stack : List (List Nat)
  cd_redo_stack : List (List Nat)
deriving Repr, DecidableEq

/-- Env::set_env on the association-list model of the exported map. -/
def setEnvVar (vars : List (String × List Nat)) (k : String) (v : List Nat) :
    List (String × List Nat) :=
  (k, v) :: vars

/-- The operation selected from argv, as in the source's Op enum. -/
inductive CdOp where
  | Undo : CdOp
  | Redo : CdOp
  | Chdir : List Nat → CdOp
deriving Repr, DecidableEq

/-- Argument dispatch of builtin_cd: no argument goes to HOME (or "." when
HOME is unset); a single dash is Undo, a single plus is Redo; anything else
is a chdir to that path. -/
def cdParseOp (home : Option (List Nat)) (arg1 : Option (List Nat)) : CdOp :=
  match arg1 with
  | none => CdOp.Chdir (home.getD [46])
  | some a =>
    if a = [45] then CdOp.Undo
    else if a = [43] then CdOp.Redo
    else CdOp.Chdir a

/-- builtin_cd as a state transformer returning the new state and the exit
status.  It mirrors the source exactly: for Undo/Redo the stack pop, the
OLDPWD update and the push onto the opposite stack all happen before the
chdir attempt, and a chdir failure returns 1 without rolling them back (only
PWD is left unset); for a plain path the chdir happens first and a failure
leaves everything unchanged; an empty stack returns 2 untouched. -/
def builtin_cd (chdirOk : List Nat → Bool) (resolve : List Nat → List Nat)
    (home : Option (List Nat)) (old_cwd : Option (List Nat))
    (arg1 : Option (List Nat)) (s : CdState) : CdState × Int :=
  match cdParseOp home arg1 with
  | CdOp.Undo =>
    match s.cd_undo_stack with
    | [] => (s, 2)
    | new_cwd :: restUndo =>
      let s1 :=
        match old_cwd with
        | some oc =>
          { s with env_vars := setEnvVar s.env_vars "OLDPWD" oc
                   cd_undo_stack := restUndo
                   cd_redo_stack := oc :: s.cd_redo_stack }
        | none => { s with cd_undo_stack := restUndo }
      if chdirOk new_cwd then
        ({ s1 with env_vars := setEnvVar s1.env_vars "PWD" new_cwd }, 0)
      else
        (s1, 1)
  | CdOp.Redo =>
    match s.cd_redo_stack with
    | [] => (s, 2)
    | new_cwd :: restRedo =>
      let s1 :=
        match old_cwd with
        | some oc =>
          { s with env_vars := setEnvVar s.env_vars "OLDPWD" oc
                   cd_redo_stack := restRedo
                   cd_undo_stack := oc :: s.cd_undo_stack }
        | none => { s with cd_redo_stack := restRedo }
      if chdirOk new_cwd then
        ({ s1 with env_vars := setEnvVar s1.env_vars "PWD" new_cwd }, 0)
      else
        (s1, 1)
  | CdOp.Chdir new_cwd =>
    if chdirOk new_cwd then
      let actual := resolve new_cwd
      let s1 :=
        match old_cwd with
        | some oc =>
          { s with env_vars := setEnvVar s.env_vars "OLDPWD" oc
                   cd_undo_stack := oc :: s.cd_undo_stack }
        | none => s
      ({ s1 with env_vars := setEnvVar s1.env_vars "PWD" actual
                 cd_redo_stack := [] }, 0)
    else
      (s, 1)

/-- C9: a failing chdir under cd with a dash (and symmetrically a plus) on
a non-empty stack returns status 1 with the popped stack, the push onto the
opposite stack and the OLDPWD update already performed and not rolled back,
and no PWD update; a failing cd to a plain path returns 1 with the whole
state untouched. -/
theorem cd_dash_fail_state_updates (chdirOk : List Nat → Bool)
    (resolve : List Nat → List Nat) (home : Option (List Nat))
    (oc target : List Nat) (rest : List (List Nat)) (s : CdState)
    (hfail : chdirOk target = false) :
    (s.cd_undo_stack = target :: rest →
      builtin_cd chdirOk resolve home (some oc) (some [45]) s =
        ({ env_vars := setEnvVar s.env_vars "OLDPWD" oc
           cd_undo_stack := rest
           cd_redo_stack := oc :: s.cd_redo_stack }, 1)) ∧
    (s.cd_redo_stack = target :: rest →
      builtin_cd chdirOk resolve home (some oc) (some [43]) s =
        ({ env_vars := setEnvVar s.env_vars "OLDPWD" oc
           cd_redo_stack := rest
           cd_undo_stack := oc :: s.cd_undo_stack }, 1)) ∧
    (∀ p : List Nat, p ≠ [45] → p ≠ [43] → chdirOk p = false →
      builtin_cd chdirOk resolve home (some oc) (some p) s = (s, 1)) := by
  refine ⟨?_, ?_, ?_⟩
  · intro hu
    simp [builtin_cd, cdParseOp, hu, hfail]
  · intro hr
    simp [builtin_cd, cdParseOp, hr, hfail]
  · intro p hp45 hp43 hpfail
    simp [builtin_cd, cdParseOp, hp45, hp43, hpfail]

/-- Witness for cd_dash_fail_state_updates on a concrete state: cd with a
dash whose chdir fails leaves the stacks and OLDPWD modified with status 1,
and a failed plain cd leaves the state unchanged. -/
theorem cd_dash_fail_state_updates_witness :
    (builtin_cd (fun _ => false) id none (some [47, 104]) (some [45])
        (CdState.mk [] [[47, 116]] []) =
      ({ env_vars := setEnvVar [] "OLDPWD" [47, 104]
         cd_undo_stack := []
         cd_redo_stack := [[47, 104]] }, 1)) ∧
    builtin_cd (fun _ => false) id none (some [47, 104]) (some [47, 120])
        (CdState.mk [] [[47, 116]] []) =
      (CdState.mk [] [[47, 116]] [], 1) :=
  ⟨(cd_dash_fail_state_updates (fun _ => false) id none [47, 104] [47, 116] []
      (CdState.mk [] [[47, 116]] []) rfl).1 rfl,
    (cd_dash_fail_state_updates (fun _ => false) id none [47, 104] [47, 116] []
      (CdState.mk [] [[47, 116]] []) rfl).2.2 [47, 120] (by decide) (by decide) rfl⟩

/-! ## Line buffer (src/line_editor/line.rs)

Cells are pairs of a character and its display width; the cursor is an
index into the cell list. -/

/-- Modelled from the spec: the display width of a character comes from a
Unicode width oracle (the unicode-width crate, external to this
repository).  No claim depends on widths and every input appearing in the
claims is single-width ASCII, so the oracle is modelled as the constant
one. -/
def charWidth (_ : Char) : Nat := 1

/-- Character classes for word motions. -/
inductive CharClass where
  | WhiteSpace : CharClass
  | Keyword : CharClass
  | Other : CharClass
deriving Repr, DecidableEq

def CharClass.is_whitespace (c : CharClass) : Bool :=
  c == CharClass.WhiteSpace

def CharClass.is_same (rough : Bool) (a b : CharClass) : Bool :=
  if rough then
    (a.is_whitespace && b.is_whitespace) || (!a.is_whitespace && !b.is_whitespace)
  else
    a == b

/-- CharClass::from.  The source uses Unicode is_whitespace and
is_alphanumeric; on the ASCII range, where every claim lives, Lean's
Char.isWhitespace and Char.isAlphanum agree with them. -/
def classOf (ch : Char) : CharClass :=
  if ch.isWhitespace then CharClass.WhiteSpace
  else if ch.isAlphanum || ch = '_' then CharClass.Keyword
  else CharClass.Other

structure Line where
  buf : List (Char × Nat)
  cursor : Nat
deriving Repr, DecidableEq

def Line.new : Line := ⟨[], 0⟩

def Line.len (l : Line) : Nat := l.buf.length

/-- The Display implementation: the text of the line. -/
def Line.toText (l : Line) : List Char := l.buf.map Prod.fst

def Line.char_at (l : Line) (i : Nat) : Option Char :=
  (l.buf.get? i).map Prod.fst

/-- Line::iter over the half-open cell range, projected to characters. -/
def Line.iterRange (l : Line) (f t : Nat) : List Char :=
  ((l.buf.take t).drop f).map Prod.fst

/-- Line::from(&str): cells with oracle widths, cursor at zero. -/
def lineFromText (text : List Char) : Line :=
  ⟨text.map (fun ch => (ch, charWidth ch)), 0⟩

/-- Vec::insert at the cursor (the editor maintains cursor ≤ length, under
which take/drop splicing is exactly Vec::insert), then advance. -/
def Line.insert (l : Line) (ch : Char) : Line :=
  ⟨l.buf.take l.cursor ++ (ch, charWidth ch) :: l.buf.drop l.cursor, l.cursor + 1⟩

def Line.delete_prev (l : Line) : Line :=
  if 0 < l.cursor then
    ⟨l.buf.take (l.cursor - 1) ++ l.buf.drop l.cursor, l.cursor - 1⟩
  else l

def Line.delete_next (l : Line) : Line :=
  if l.cursor < l.len then
    ⟨l.buf.take l.cursor ++ l.buf.drop (l.cursor + 1), l.cursor⟩
  else l

def Line.delete_line (_ : Line) : Line := ⟨[], 0⟩

/-- delete_range keeps exactly the cells whose index is outside [f, t) and
puts the cursor at f. -/
def Line.delete_range (l : Line) (f t : Nat) : Line :=
  ⟨(l.buf.enum.filter fun p => !(decide (f ≤ p.1) && decide (p.1 < t))).map Prod.snd, f⟩

def Line.cursor_prev_char (l : Line) : Line :=
  if 0 < l.cursor then ⟨l.buf, l.cursor - 1⟩ else l

def Line.cursor_next_char (l : Line) : Line :=
  if l.cursor < l.len then ⟨l.buf, l.cursor + 1⟩ else l

def Line.cursor_end_of_line (l : Line) : Line := ⟨l.buf, l.buf.length⟩

def Line.cursor_exact (l : Line) (pos : Nat) : Line := ⟨l.buf, pos⟩

def Line.normal_mode_fix_cursor (l : Line) : Line :=
  if l.len ≤ l.cursor then ⟨l.buf, l.len - 1⟩ else l

/-- A source loop of the shape: while the cursor is positive and the
character before it satisfies p, delete the previous character.  The
recursion is structural on the cursor, which each deletion decrements; the
pair carries the evolving buffer and cursor. -/
def delPrevWhileAux (p : Char → Bool) :
    List (Char × Nat) → Nat → List (Char × Nat) × Nat
  | buf, 0 => (buf, 0)
  | buf, k + 1 =>
    match (buf.get? k).map Prod.fst with
    | some ch =>
      if p ch then delPrevWhileAux p (buf.take k ++ buf.drop (k + 1)) k
      else (buf, k + 1)
    | none => (buf, k + 1)

def delPrevWhile (l : Line) (p : Char → Bool) : Line :=
  let r := delPrevWhileAux p l.buf l.cursor
  ⟨r.1, r.2⟩

/-- A source loop of the shape: while the cursor is positive and the
character before it satisfies p, decrement the cursor (structural on the
cursor). -/
def cursorDecWhileAux (buf : List (Char × Nat)) (p : Char → Bool) : Nat → Nat
  | 0 => 0
  | k + 1 =>
    match (buf.get? k).map Prod.fst with
    | some ch => if p ch then cursorDecWhileAux buf p k else k + 1
    | none => k + 1

def cursorDecWhile (l : Line) (p : Char → Bool) : Line :=
  ⟨l.buf, cursorDecWhileAux l.buf p l.cursor⟩

/-- A source loop of the shape: while cursor + 1 < len and the character at
the cursor satisfies p, increment the cursor.  The first argument is fuel
bounding the iteration count; the loop guard caps the iterations at the
buffer length, so with fuel one above the length the fuel is never
exhausted before the guard stops the loop. -/
def incWhilePreAux (buf : List (Char × Nat)) (p : Char → Bool) : Nat → Nat → Nat
  | 0, i => i
  | fuel + 1, i =>
    if i + 1 < buf.length then
      match (buf.get? i).map Prod.fst with
      | some ch => if p ch then incWhilePreAux buf p fuel (i + 1) else i
      | none => i
    else i

def cursorIncWhilePre (l : Line) (p : Char → Bool) : Line :=
  ⟨l.buf, incWhilePreAux l.buf p (l.buf.length + 1) l.cursor⟩

/-- A source loop of the shape: while cursor + 1 < len and the character
AFTER the cursor satisfies p, increment the cursor (fuelled as above). -/
def incWhileNextAux (buf : List (Char × Nat)) (p : Char → Bool) : Nat → Nat → Nat
  | 0, i => i
  | fuel + 1, i =>
    if i + 1 < buf.length then
      match (buf.get? (i + 1)).map Prod.fst with
      | some ch => if p ch then incWhileNextAux buf p fuel (i + 1) else i
      | none => i
    else i

def cursorIncWhileNext (l : Line) (p : Char → Bool) : Line :=
  ⟨l.buf, incWhileNextAux l.buf p (l.buf.length + 1) l.cursor⟩

/-- A source loop of the shape: while cursor < len and the character at the
cursor satisfies p, increment the cursor (fuelled as above). -/
def incWhileLtAux (buf : List (Char × Nat)) (p : Char → Bool) : Nat → Nat → Nat
  | 0, i => i
  | fuel + 1, i =>
    if i < buf.length then
      match (buf.get? i).map Prod.fst with
      | some ch => if p ch then incWhileLtAux buf p fuel (i + 1) else i
      | none => i
    else i

def cursorIncWhileLt (l : Line) (p : Char → Bool) : Line :=
  ⟨l.buf, incWhileLtAux l.buf p (l.buf.length + 1) l.cursor⟩

def Line.delete_word (l : Line) : Line :=
  let l1 := delPrevWhile l (fun ch => (classOf ch).is_whitespace)
  if l1.cursor = 0 then l1
  else
    match l1.char_at (l1.cursor - 1) with
    | some ch0 =>
      delPrevWhile l1 (fun ch => CharClass.is_same false (classOf ch) (classOf ch0))
    | none => l1

def Line.cursor_prev_word_head (l : Line) (wide : Bool) : Line :=
  let l1 := cursorDecWhile l (fun ch => (classOf ch).is_whitespace)
  if l1.cursor = 0 then l1
  else
    match l1.char_at (l1.cursor - 1) with
    | some ch0 =>
      cursorDecWhile l1 (fun ch => CharClass.is_same wide (classOf ch) (classOf ch0))
    | none => l1

def Line.cursor_next_word_head (l : Line) (wide : Bool) : Line :=
  if l.cursor = l.len then l
  else
    match l.char_at l.cursor with
    | some ch0 =>
      let l1 := cursorIncWhilePre l
        (fun ch => CharClass.is_same wide (classOf ch) (classOf ch0))
      cursorIncWhilePre l1 (fun ch => (classOf ch).is_whitespace)
    | none => l

def Line.cursor_next_word_end (l : Line) (wide : Bool) : Line :=
  let l0 := l.cursor_next_char
  let l1 := cursorIncWhilePre l0 (fun ch => (classOf ch).is_whitespace)
  if l1.cursor = l1.len then l1
  else
    match l1.char_at l1.cursor with
    | some ch0 =>
      cursorIncWhileNext l1 (fun ch => CharClass.is_same wide (classOf ch) (classOf ch0))
    | none => l1

def Line.cursor_begin_of_line (l : Line) : Line :=
  cursorIncWhileLt ⟨l.buf, 0⟩ (fun ch => ch.isWhitespace)

/-- cursor_prev_char_match scans indices cursor-1 down to 1 (the source's
isize loop runs while i > 0, so index 0 is never examined). -/
def prevMatchAux (buf : List (Char × Nat)) (target : Char) : Nat → Option Nat
  | 0 => none
  | k + 1 =>
    if (buf.get? (k + 1)).map Prod.fst = some target then some (k + 1)
    else prevMatchAux buf target k

def Line.cursor_prev_char_match (l : Line) (target : Char) : Line :=
  match prevMatchAux l.buf target (l.cursor - 1) with
  | some i => ⟨l.buf, i⟩
  | none => l

/-- cursor_next_char_match scans indices cursor+1 upwards for the target
(fuelled; the guard caps the iterations at the buffer length). -/
def nextMatchAux (buf : List (Char × Nat)) (target : Char) : Nat → Nat → Option Nat
  | 0, _ => none
  | fuel + 1, i =>
    if i < buf.length then
      if (buf.get? i).map Prod.fst = some target then some i
      else nextMatchAux buf target fuel (i + 1)
    else none

def Line.cursor_next_char_match (l : Line) (target : Char) : Line :=
  match nextMatchAux l.buf target (l.buf.length + 1) (l.cursor + 1) with
  | some i => ⟨l.buf, i⟩
  | none => l

/-- An index walk of the shape: while i > 0 and the character at i-1
satisfies p, decrement i. -/
def idxDecWhile (line : Line) (p : Char → Bool) : Nat → Nat
  | 0 => 0
  | i + 1 =>
    match line.char_at i with
    | some ch => if p ch then idxDecWhile line p i else i + 1
    | none => i + 1

/-- An index walk of the shape: while i < len and the character at i
satisfies p, increment i (fuelled; the guard caps the iterations at the
buffer length). -/
def idxIncWhileAux (buf : List (Char × Nat)) (p : Char → Bool) : Nat → Nat → Nat
  | 0, i => i
  | fuel + 1, i =>
    if i < buf.length then
      match (buf.get? i).map Prod.fst with
      | some ch => if p ch then idxIncWhileAux buf p fuel (i + 1) else i
      | none => i
    else i

def idxIncWhile (line : Line) (p : Char → Bool) (i : Nat) : Nat :=
  idxIncWhileAux line.buf p (line.buf.length + 1) i

def cursorPrevN (l : Line) : Nat → Line
  | 0 => l
  | n + 1 => cursorPrevN l.cursor_prev_char n

def Line.duplicate_current_word (l : Line) : Line :=
  let cursor_pos := l.cursor
  let i1 := idxDecWhile l (fun ch => (classOf ch).is_whitespace) cursor_pos
  let word_begin := idxDecWhile l (fun ch => !(classOf ch).is_whitespace) i1
  let i2 := idxDecWhile l (fun ch => (classOf ch).is_whitespace) cursor_pos
  let word_end := idxIncWhile l (fun ch => !(classOf ch).is_whitespace) i2
  let back := word_end - cursor_pos
  let l1 := (l.cursor_exact word_end).insert ' '
  let l2 := (l.iterRange word_begin word_end).foldl (fun acc ch => acc.insert ch) l1
  cursorPrevN l2 back

/-! ## Text objects (src/line_editor/text_object.rs) -/

inductive Selector where
  | An : Selector
  | Inside : Selector
deriving Repr, DecidableEq

inductive TextObject where
  | Word : Bool → TextObject
  | Pair : Char → Char → TextObject
deriving Repr, DecidableEq

/-- An index walk of the shape: while i > 0 and the character AT i
satisfies p, decrement i (used by the An-Pair selector, which tests the
character at the current index rather than the one before it). -/
def idxDecWhileAt (line : Line) (p : Char → Bool) : Nat → Nat
  | 0 => 0
  | i + 1 =>
    match line.char_at (i + 1) with
    | some ch => if p ch then idxDecWhileAt line p i else i + 1
    | none => i + 1

/-- The An-Pair right walk: advance to the closing character and one past
it; reaching the end of the line stops there (fuelled as above). -/
def anPairToAux (buf : List (Char × Nat)) (e : Char) : Nat → Nat → Nat
  | 0, i => i
  | fuel + 1, i =>
    if i < buf.length then
      match (buf.get? i).map Prod.fst with
      | some ch => if ch = e then i + 1 else anPairToAux buf e fuel (i + 1)
      | none => i
    else i

def anPairTo (line : Line) (e : Char) (i : Nat) : Nat :=
  anPairToAux line.buf e (line.buf.length + 1) i

/-- find_range: resolve a selector and object to a half-open index range in
the current line (no nesting or escaping awareness). -/
def find_range (line : Line) (sel : Selector) (obj : TextObject) : Nat × Nat :=
  match sel, obj with
  | Selector.Inside, TextObject.Word wide =>
    match line.char_at line.cursor with
    | none => (0, 0)
    | some ch =>
      let wc := classOf ch
      let f := idxDecWhile line (fun c => CharClass.is_same wide (classOf c) wc)
        line.cursor
      let t := idxIncWhile line (fun c => CharClass.is_same wide (classOf c) wc)
        line.cursor
      (f, t)
  | Selector.An, TextObject.Word wide =>
    match line.char_at line.cursor with
    | none => (0, 0)
    | some ch =>
      let wc := classOf ch
      let f1 := idxDecWhile line (fun c => CharClass.is_same wide (classOf c) wc)
        line.cursor
      let f := idxDecWhile line (fun c => (classOf c).is_whitespace) f1
      let t1 := idxIncWhile line (fun c => CharClass.is_same wide (classOf c) wc)
        line.cursor
      let t := idxIncWhile line (fun c => (classOf c).is_whitespace) t1
      (f, t)
  | Selector.Inside, TextObject.Pair b e =>
    let f := idxDecWhile line (fun c => !(c == b)) line.cursor
    let t := idxIncWhile line (fun c => !(c == e)) line.cursor
    (f, t)
  | Selector.An, TextObject.Pair b e =>
    let f := idxDecWhileAt line (fun c => !(c == b)) line.cursor
    let t := anPairTo line e line.cursor
    (f, t)

/-- parse_vim_text_object: a two-character selector+object. -/
def parse_vim_text_object (sel obj : Char) : Option (Selector × TextObject) :=
  let s : Option Selector :=
    if sel = 'i' then some Selector.Inside
    else if sel = 'a' then some Selector.An
    else none
  match s with
  | none => none
  | some s =>
    let o : Option TextObject :=
      if obj = 'w' then some (TextObject.Word false)
      else if obj = 'W' then some (TextObject.Word true)
      else if obj = '(' ∨ obj = ')' then some (TextObject.Pair '(' ')')
      else if obj = '[' ∨ obj = ']' then some (TextObject.Pair '[' ']')
      else if obj = '<' ∨ obj = '>' then some (TextObject.Pair '<' '>')
      else if obj = '\x7b' ∨ obj = '\x7d' then some (TextObject.Pair '\x7b' '\x7d')
      else if obj = '\x27' then some (TextObject.Pair '\x27' '\x27')
      else if obj = '\x22' then some (TextObject.Pair '\x22' '\x22')
      else if obj = '\x60' then some (TextObject.Pair '\x60' '\x60')
      else none
    o.map fun o => (s, o)

/-! ## Editor events and commands (src/line_editor/mod.rs) -/

inductive Event where
  | KeyEscape : Event
  | KeyTab : Event
  | KeyBackspace : Event
  | KeyDelete : Event
  | KeyReturn : Event
  | KeyUp : Event
  | KeyDown : Event
  | KeyLeft : Event
  | KeyRight : Event
  | Ctrl : Char → Event
  | Char : Char → Event
deriving Repr, DecidableEq

/-- The driver's command vocabulary.  DuplicateWord is the command emitted
by Ctrl-N in insert mode and executed through Line::duplicate_current_word. -/
inductive Command where
  | CursorPrevChar : Command
  | CursorPrevCharMatch : Char → Command
  | CursorNextChar : Command
  | CursorNextCharMatch : Char → Command
  | CursorPrevWordHead : Command
  | CursorPrevWordHeadWide : Command
  | CursorNextWordHead : Command
  | CursorNextWordHeadWide : Command
  | CursorNextWordEnd : Command
  | CursorNextWordEndWide : Command
  | CursorEnd : Command
  | CursorBegin : Command
  | CursorExact : Nat → Command
  | HistoryPrev : Command
  | HistoryNext : Command
  | HistorySearch : List Char → Bool → Command
  | DeletePrevChar : Command
  | DeleteNextChar : Command
  | DeletePrevWord : Command
  | DeleteLine : Command
  | DeleteRange : Nat → Nat → Command
  | Commit : Command
  | ChangeModeToInsert : Command
  | ChangeModeToNormal : Command
  | ChangeModeToVisualChar : Command
  | ChangeModeToVisualLine : Command
  | ChangeModeToSearch : Command
  | Insert : Char → Command
  | RegisterStore : Char → List Char → Command
  | RegisterPastePrev : Char → Command
  | RegisterPasteNext : Char → Command
  | MakeCheckPoint : Command
  | Undo : Command
  | Redo : Command
  | TryCompleteFilename : Command
  | DisplayCompletionCandidate : Command
  | CdToParent : Command
  | CdUndo : Command
  | CdRedo : Command
  | DuplicateWord : Command
deriving Repr, DecidableEq

/-! ## Mode state machines (src/line_editor/modes.rs)

Each mode consumes one event with a read-only view of the current line and
yields its successor state plus the commands to append to the queue.  The
Visual origin is an Option: none is the whole-line sentinel (isize MIN in
the source). -/

inductive Mode where
  | Insert : Mode
  | Normal : List Char → Option (Char × Char) → Mode
  | Visual : Option Nat → List Char → Mode
  | Search : Line → Mode
deriving Repr, DecidableEq

def Mode.is_insert : Mode → Bool
  | Mode.Insert => true
  | Mode.Search _ => true
  | _ => false

def insertProcessEvent (ev : Event) : Mode × List Command :=
  (Mode.Insert,
    match ev with
    | Event.KeyEscape => [Command.CursorPrevChar, Command.ChangeModeToNormal]
    | Event.KeyReturn => [Command.Commit]
    | Event.KeyLeft => [Command.CursorPrevChar]
    | Event.KeyRight => [Command.CursorNextChar]
    | Event.KeyUp => [Command.HistoryPrev]
    | Event.KeyDown => [Command.HistoryNext]
    | Event.Char ch => [Command.Insert ch]
    | Event.KeyBackspace => [Command.DeletePrevChar]
    | Event.KeyDelete => [Command.DeleteNextChar]
    | Event.KeyTab => [Command.TryCompleteFilename]
    | Event.Ctrl c =>
      if c = 'w' then [Command.DeletePrevWord]
      else if c = 'u' then [Command.DeleteLine]
      else if c = 'd' then [Command.DisplayCompletionCandidate]
      else if c = 'p' then [Command.CdToParent]
      else if c = 'o' then [Command.CdUndo]
      else if c = 'r' then [Command.ChangeModeToSearch]
      else if c = 'n' then [Command.DuplicateWord]
      else [])

/-- NormalMode::process_text_object once the combo holds three characters:
resolve the selector and object, act according to the combo's first
character, then clear the combo. -/
def normalTextObjectFire (combo : List Char) (lastFind : Option (Char × Char))
    (line : Line) : Mode × List Command :=
  let cmds :=
    match combo.get? 1, combo.get? 2 with
    | some sel, some obj =>
      match parse_vim_text_object sel obj with
      | some (s, o) =>
        let ft := find_range line s o
        let selected := line.iterRange ft.1 ft.2
        match combo.get? 0 with
        | some c0 =>
          if c0 = 'd' then
            [Command.MakeCheckPoint, Command.RegisterStore '\x22' selected,
              Command.DeleteRange ft.1 ft.2]
          else if c0 = 'c' then
            [Command.MakeCheckPoint, Command.RegisterStore '\x22' selected,
              Command.DeleteRange ft.1 ft.2, Command.ChangeModeToInsert]
          else if c0 = 'y' then
            [Command.RegisterStore '\x22' selected, Command.CursorExact ft.1]
          else []
        | none => []
      | none => []
    | _, _ => []
  (Mode.Normal [] lastFind, cmds)

/-- NormalMode::process_text_object: with fewer than three combo
characters, a printable key extends the combo (firing at three) and any
other key clears it. -/
def normalProcessTextObject (combo : List Char) (lastFind : Option (Char × Char))
    (ev : Event) (line : Line) : Mode × List Command :=
  if combo.length < 3 then
    match ev with
    | Event.Char ch =>
      let combo2 := combo ++ [ch]
      if combo2.length < 3 then (Mode.Normal combo2 lastFind, [])
      else normalTextObjectFire combo2 lastFind line
    | _ => (Mode.Normal [] lastFind, [])
  else normalTextObjectFire combo lastFind line

def normalProcessEvent (combo : List Char) (lastFind : Option (Char × Char))
    (ev : Event) (line : Line) : Mode × List Command :=
  match combo.head? with
  | none =>
    let keep := Mode.Normal [] lastFind
    match ev with
    | Event.Char ch =>
      if ch = 'i' then (keep, [Command.MakeCheckPoint, Command.ChangeModeToInsert])
      else if ch = 'v' then (keep, [Command.ChangeModeToVisualChar])
      else if ch = 'V' then (keep, [Command.ChangeModeToVisualLine])
      else if ch = 'h' then (keep, [Command.CursorPrevChar])
      else if ch = 'l' then (keep, [Command.CursorNextChar])
      else if ch = 'k' then (keep, [Command.HistoryPrev])
      else if ch = 'j' then (keep, [Command.HistoryNext])
      else if ch = 'w' then (keep, [Command.CursorNextWordHead])
      else if ch = 'W' then (keep, [Command.CursorNextWordHeadWide])
      else if ch = 'e' then (keep, [Command.CursorNextWordEnd])
      else if ch = 'E' then (keep, [Command.CursorNextWordEndWide])
      else if ch = 'b' then (keep, [Command.CursorPrevWordHead])
      else if ch = 'B' then (keep, [Command.CursorPrevWordHeadWide])
      else if ch = 'f' then (Mode.Normal ['f'] lastFind, [])
      else if ch = 'F' then (Mode.Normal ['F'] lastFind, [])
      else if ch = ';' then
        match lastFind with
        | some (k, c) =>
          if k = 'f' then (keep, [Command.CursorNextCharMatch c])
          else if k = 'F' then (keep, [Command.CursorPrevCharMatch c])
          else (keep, [])
        | none => (keep, [])
      else if ch = '$' then (keep, [Command.CursorEnd])
      else if ch = '^' then (keep, [Command.CursorBegin])
      else if ch = '0' then (keep, [Command.CursorExact 0])
      else if ch = 'A' then
        (keep, [Command.MakeCheckPoint, Command.ChangeModeToInsert, Command.CursorEnd])
      else if ch = 'I' then
        (keep, [Command.MakeCheckPoint, Command.ChangeModeToInsert, Command.CursorBegin])
      else if ch = 'a' then
        (keep, [Command.MakeCheckPoint, Command.ChangeModeToInsert, Command.CursorNextChar])
      else if ch = 's' then
        (keep,
          [Command.MakeCheckPoint] ++
            (match line.char_at line.cursor with
             | some c => [Command.RegisterStore '\x22' [c]]
             | none => []) ++
            [Command.ChangeModeToInsert, Command.DeleteNextChar])
      else if ch = 'x' then
        (keep,
          [Command.MakeCheckPoint] ++
            (match line.char_at line.cursor with
             | some c => [Command.RegisterStore '\x22' [c]]
             | none => []) ++
            [Command.DeleteNextChar])
      else if ch = 'd' then (Mode.Normal ['d'] lastFind, [])
      else if ch = 'c' then (Mode.Normal ['c'] lastFind, [])
      else if ch = 'D' then
        (keep, [Command.MakeCheckPoint,
          Command.RegisterStore '\x22' (line.iterRange line.cursor line.len),
          Command.DeleteRange line.cursor line.len])
      else if ch = 'C' then
        (keep, [Command.MakeCheckPoint,
          Command.RegisterStore '\x22' (line.iterRange line.cursor line.len),
          Command.ChangeModeToInsert,
          Command.DeleteRange line.cursor line.len])
      else if ch = 'S' then
        (keep, [Command.MakeCheckPoint, Command.DeleteLine, Command.ChangeModeToInsert])
      else if ch = 'y' then (Mode.Normal ['y'] lastFind, [])
      else if ch = 'Y' then (keep, [Command.RegisterStore '\x22' line.toText])
      else if ch = 'P' then
        (keep, [Command.MakeCheckPoint, Command.RegisterPastePrev '\x22'])
      else if ch = 'p' then
        (keep, [Command.MakeCheckPoint, Command.RegisterPasteNext '\x22'])
      else if ch = 'u' then (keep, [Command.Undo])
      else (keep, [])
    | Event.KeyReturn => (keep, [Command.Commit])
    | Event.KeyLeft => (keep, [Command.CursorPrevChar])
    | Event.KeyRight => (keep, [Command.CursorNextChar])
    | Event.KeyUp => (keep, [Command.HistoryPrev])
    | Event.KeyDown => (keep, [Command.HistoryNext])
    | Event.Ctrl c =>
      if c = 'r' then (keep, [Command.Redo])
      else if c = 'o' then (keep, [Command.CdUndo])
      else if c = 'p' then (keep, [Command.CdToParent])
      else (keep, [])
    | Event.KeyTab => (keep, [Command.CdRedo])
    | _ => (keep, [])
  | some c0 =>
    if c0 = 'd' then
      if combo.length = 1 ∧ ev = Event.Char 'd' then
        (Mode.Normal [] lastFind,
          [Command.MakeCheckPoint, Command.RegisterStore '\x22' line.toText,
            Command.DeleteLine])
      else normalProcessTextObject combo lastFind ev line
    else if c0 = 'c' then
      if combo.length = 1 ∧ ev = Event.Char 'c' then
        (Mode.Normal [] lastFind,
          [Command.MakeCheckPoint, Command.RegisterStore '\x22' line.toText,
            Command.DeleteLine, Command.ChangeModeToInsert])
      else normalProcessTextObject combo lastFind ev line
    else if c0 = 'y' then
      if combo.length = 1 ∧ ev = Event.Char 'y' then
        (Mode.Normal [] lastFind, [Command.RegisterStore '\x22' line.toText])
      else normalProcessTextObject combo lastFind ev line
    else if c0 = 'f' then
      match ev with
      | Event.Char ch =>
        (Mode.Normal [] (some ('f', ch)), [Command.CursorNextCharMatch ch])
      | _ => (Mode.Normal [] none, [])
    else if c0 = 'F' then
      match ev with
      | Event.Char ch =>
        (Mode.Normal [] (some ('F', ch)), [Command.CursorPrevCharMatch ch])
      | _ => (Mode.Normal [] none, [])
    else (Mode.Normal combo lastFind, [])

def searchProcessEvent (query : Line) (ev : Event) : Mode × List Command :=
  match ev with
  | Event.KeyEscape => (Mode.Search query, [Command.ChangeModeToInsert])
  | Event.KeyTab => (Mode.Search query, [Command.ChangeModeToInsert])
  | Event.KeyReturn => (Mode.Search query, [Command.ChangeModeToInsert, Command.Commit])
  | Event.KeyLeft =>
    (Mode.Search query, [Command.ChangeModeToInsert, Command.CursorPrevChar])
  | Event.KeyRight =>
    (Mode.Search query, [Command.ChangeModeToInsert, Command.CursorNextChar])
  | Event.KeyUp => (Mode.Search query, [Command.ChangeModeToInsert, Command.HistoryPrev])
  | Event.KeyDown => (Mode.Search query, [Command.ChangeModeToInsert, Command.HistoryNext])
  | Event.Char ch =>
    let q2 := query.insert ch
    (Mode.Search q2, [Command.HistorySearch q2.toText true])
  | Event.KeyBackspace =>
    let q2 := query.delete_prev
    (Mode.Search q2, [Command.HistorySearch q2.toText true])
  | Event.Ctrl c =>
    if c = 'u' ∨ c = 'd' then (Mode.Search query, [Command.ChangeModeToInsert])
    else if c = 'w' then
      let q2 := query.delete_word
      (Mode.Search q2, [Command.HistorySearch q2.toText true])
    else if c = 'r' then
      (Mode.Search query, [Command.HistorySearch query.toText false])
    else (Mode.Search query, [])
  | _ => (Mode.Search query, [])

/-- VisualMode::process_text_object: a printable key extends the
two-character combo; at two characters the range is resolved, the origin
re-anchored and the cursor moved to the range's last cell. -/
def visualProcessTextObject (origin : Option Nat) (combo : List Char)
    (ev : Event) (line : Line) : Mode × List Command :=
  let fire := fun (combo2 : List Char) =>
    match combo2.get? 0, combo2.get? 1 with
    | some sel, some obj =>
      match parse_vim_text_object sel obj with
      | some (s, o) =>
        let ft := find_range line s o
        if ft.1 < ft.2 then
          (Mode.Visual (some ft.1) [], [Command.CursorExact (ft.2 - 1)])
        else (Mode.Visual origin [], [])
      | none => (Mode.Visual origin [], [])
    | _, _ => (Mode.Visual origin [], [])
  if combo.length < 2 then
    match ev with
    | Event.Char ch =>
      let combo2 := combo ++ [ch]
      if combo2.length < 2 then (Mode.Visual origin combo2, [])
      else fire combo2
    | _ => (Mode.Visual origin [], [])
  else fire combo

/-- The half-open range selected in char-visual mode, together with its
text, as computed in the d/x/c/s/y handlers. -/
def visualCharRange (origin : Nat) (line : Line) : Nat × Nat :=
  let f := min origin line.cursor
  let t := max origin line.cursor
  (f, t + 1)

def visualProcessEvent (origin : Option Nat) (combo : List Char)
    (ev : Event) (line : Line) : Mode × List Command :=
  match combo.head? with
  | some _ => visualProcessTextObject origin combo ev line
  | none =>
    let keep := Mode.Visual origin combo
    match ev with
    | Event.KeyEscape => (keep, [Command.ChangeModeToNormal])
    | Event.KeyReturn => (keep, [Command.Commit])
    | Event.KeyLeft => (keep, [Command.CursorPrevChar])
    | Event.KeyRight => (keep, [Command.CursorNextChar])
    | Event.Char ch =>
      if ch = 'v' then (keep, [Command.ChangeModeToNormal])
      else if ch = 'i' ∨ ch = 'a' then (Mode.Visual origin (combo ++ [ch]), [])
      else if ch = 'h' then (keep, [Command.CursorPrevChar])
      else if ch = 'l' then (keep, [Command.CursorNextChar])
      else if ch = 'w' then (keep, [Command.CursorNextWordHead])
      else if ch = 'W' then (keep, [Command.CursorNextWordHeadWide])
      else if ch = 'e' then (keep, [Command.CursorNextWordEnd])
      else if ch = 'E' then (keep, [Command.CursorNextWordEndWide])
      else if ch = 'b' then (keep, [Command.CursorPrevWordHead])
      else if ch = 'B' then (keep, [Command.CursorPrevWordHeadWide])
      else if ch = 'o' then
        match origin with
        | some og => (Mode.Visual (some line.cursor) combo, [Command.CursorExact og])
        | none => (keep, [])
      else if ch = '$' then (keep, [Command.CursorEnd])
      else if ch = '^' then (keep, [Command.CursorBegin])
      else if ch = '0' then (keep, [Command.CursorExact 0])
      else if ch = 'D' then
        (keep, [Command.MakeCheckPoint, Command.RegisterStore '\x22' line.toText,
          Command.DeleteLine, Command.ChangeModeToNormal])
      else if ch = 'C' ∨ ch = 'S' then
        (keep, [Command.MakeCheckPoint, Command.RegisterStore '\x22' line.toText,
          Command.ChangeModeToInsert, Command.DeleteLine])
      else if ch = 'Y' then
        (keep, [Command.RegisterStore '\x22' line.toText, Command.ChangeModeToNormal])
      else if ch = 'd' ∨ ch = 'x' then
        match origin with
        | none =>
          (keep, [Command.MakeCheckPoint, Command.RegisterStore '\x22' line.toText,
            Command.DeleteLine, Command.ChangeModeToNormal])
        | some og =>
          let ft := visualCharRange og line
          (keep, [Command.MakeCheckPoint,
            Command.RegisterStore '\x22' (line.iterRange ft.1 ft.2),
            Command.DeleteRange ft.1 ft.2, Command.ChangeModeToNormal])
      else if ch = 'c' ∨ ch = 's' then
        match origin with
        | none =>
          (keep, [Command.MakeCheckPoint, Command.ChangeModeToInsert,
            Command.RegisterStore '\x22' line.toText, Command.DeleteLine])
        | some og =>
          let ft := visualCharRange og line
          (keep, [Command.MakeCheckPoint, Command.ChangeModeToInsert,
            Command.RegisterStore '\x22' (line.iterRange ft.1 ft.2),
            Command.DeleteRange ft.1 ft.2])
      else if ch = 'y' then
        match origin with
        | none =>
          (keep, [Command.RegisterStore '\x22' line.toText, Command.DeleteLine,
            Command.ChangeModeToNormal])
        | some og =>
          let ft := visualCharRange og line
          (keep, [Command.RegisterStore '\x22' (line.iterRange ft.1 ft.2),
            Command.ChangeModeToNormal])
      else (keep, [])
    | _ => (keep, [])

/-! ## History search (the HistorySearch handler in read_line,
src/line_editor/mod.rs) -/

/-- str::find on character lists: the first index where the query occurs. -/
def findSub (hay query : List Char) : Option Nat :=
  match hay with
  | [] => if query.isPrefixOf ([] : List Char) then some 0 else none
  | h :: t =>
    if query.isPrefixOf (h :: t) then some 0
    else (findSub t query).map fun n => n + 1

/-- A backwards scan over an enumerated slice: the entry with the greatest
index whose line contains the query, together with that index and the match
position — exactly iterating enumerate().rev() and stopping at the first
hit. -/
def searchBack (slice : List (List Char)) (query : List Char) :
    Option (Nat × List Char × Nat) :=
  (slice.enum.reverse.filterMap fun p =>
    (findSub p.2 query).map fun pos => (p.1, p.2, pos)).head?

/-- The modulus of usize arithmetic on a 64-bit target. -/
def USIZE_MOD : Nat := 2 ^ 64

/-- The HistorySearch command handler.  On reset the start index is
recomputed as the history length minus one in wrapping usize arithmetic;
the two subsequent slices of the history are in range only when the index
is at most the length, otherwise the program aborts with an out-of-range
index (result none; a debug build panics one step earlier, at the
underflowing subtraction).  Otherwise the handler scans history[0..idx]
backwards, then history[idx..] backwards (recording, as the source does,
the enumeration index local to the second slice), and when nothing matches
replaces the line with the query text.  The result carries the new line
text, the cursor position, and the new start index. -/
def historySearchStep (history : List (List Char)) (startIdx : Nat)
    (query : List Char) (reset : Bool) : Option (List Char × Nat × Nat) :=
  let idx := if reset then (history.length + (USIZE_MOD - 1)) % USIZE_MOD else startIdx
  if idx ≤ history.length then
    match searchBack (history.take idx) query with
    | some (i, h, pos) => some (h, pos + query.length, i)
    | none =>
      match searchBack (history.drop idx) query with
      | some (i, h, pos) => some (h, pos + query.length, i)
      | none => some (query, query.length, idx)
  else
    none

/-! ## The read_line driver (src/line_editor/mod.rs)

The model tracks the single current buffer: the temporal row machinery for
history navigation is outside every claim, and with an empty committed-line
history (the setting of every run below) the source's HistoryPrev and
HistoryNext handlers leave the buffer untouched, which is how they are
modelled.  The completion engine queries the filesystem and the command
index; its two commands are modelled as leaving the editor unchanged,
which matches the source when the providers return no candidate.  Events
are fed one per read, as a terminal delivers keystrokes. -/

/-- How one read_line invocation ends: a committed line, a synthesized cd
command, Ctrl-C abort, or Ctrl-D exit. -/
inductive ReadOutcome where
  | Committed : List Char → ReadOutcome
  | CdCmd : List Char → ReadOutcome
  | Aborted : ReadOutcome
  | Exited : ReadOutcome
deriving Repr, DecidableEq

structure EditorState where
  mode : Mode
  line : Line
  undo_stack : List Line
  redo_stack : List Line
  registers : List (Char × List Char)
  line_history : List (List Char)
  history_search_start_idx : Nat
  outcome : Option ReadOutcome
  panicked : Bool
deriving Repr, DecidableEq

/-- The command interpreter of the redraw loop (one arm per Command).  The
stacks grow at the head (Vec push/pop at the end).  Commit also performs
the post-loop push of a non-empty committed line onto the history. -/
def applyCommand (s : EditorState) : Command → EditorState
  | Command.CursorPrevChar => { s with line := s.line.cursor_prev_char }
  | Command.CursorNextChar => { s with line := s.line.cursor_next_char }
  | Command.CursorPrevCharMatch c => { s with line := s.line.cursor_prev_char_match c }
  | Command.CursorNextCharMatch c => { s with line := s.line.cursor_next_char_match c }
  | Command.CursorPrevWordHead => { s with line := s.line.cursor_prev_word_head false }
  | Command.CursorPrevWordHeadWide => { s with line := s.line.cursor_prev_word_head true }
  | Command.CursorNextWordHead => { s with line := s.line.cursor_next_word_head false }
  | Command.CursorNextWordHeadWide => { s with line := s.line.cursor_next_word_head true }
  | Command.CursorNextWordEnd => { s with line := s.line.cursor_next_word_end false }
  | Command.CursorNextWordEndWide => { s with line := s.line.cursor_next_word_end true }
  | Command.CursorEnd => { s with line := s.line.cursor_end_of_line }
  | Command.CursorBegin => { s with line := s.line.cursor_begin_of_line }
  | Command.CursorExact pos => { s with line := s.line.cursor_exact pos }
  | Command.HistoryPrev => s
  | Command.HistoryNext => s
  | Command.HistorySearch q reset =>
    match historySearchStep s.line_history s.history_search_start_idx q reset with
    | none => { s with panicked := true }
    | some (text, cur, idx) =>
      { s with line := (lineFromText text).cursor_exact cur
               history_search_start_idx := idx }
  | Command.DeletePrevChar => { s with line := s.line.delete_prev }
  | Command.DeleteNextChar => { s with line := s.line.delete_next }
  | Command.DeletePrevWord => { s with line := s.line.delete_word }
  | Command.DeleteLine => { s with line := s.line.delete_line }
  | Command.DeleteRange f t => { s with line := s.line.delete_range f t }
  | Command.Commit =>
    { s with outcome := some (ReadOutcome.Committed s.line.toText)
             line_history :=
               if s.line.toText = [] then s.line_history
               else s.line_history ++ [s.line.toText] }
  | Command.ChangeModeToInsert => { s with mode := Mode.Insert }
  | Command.ChangeModeToNormal => { s with mode := Mode.Normal [] none }
  | Command.ChangeModeToVisualChar => { s with mode := Mode.Visual (some s.line.cursor) [] }
  | Command.ChangeModeToVisualLine => { s with mode := Mode.Visual none [] }
  | Command.ChangeModeToSearch => { s with mode := Mode.Search Line.new }
  | Command.Insert ch => { s with line := s.line.insert ch }
  | Command.RegisterStore reg text => { s with registers := (reg, text) :: s.registers }
  | Command.RegisterPastePrev reg =>
    match s.registers.lookup reg with
    | some text => { s with line := text.foldl (fun l ch => l.insert ch) s.line }
    | none => s
  | Command.RegisterPasteNext reg =>
    match s.registers.lookup reg with
    | some text =>
      { s with line :=
          (text.foldl (fun l ch => l.insert ch) s.line.cursor_next_char).cursor_prev_char }
    | none => s
  | Command.MakeCheckPoint =>
    { s with undo_stack := s.line :: s.undo_stack, redo_stack := [] }
  | Command.Undo =>
    match s.undo_stack with
    | [] => s
    | l :: rest =>
      { s with redo_stack := s.line :: s.redo_stack, line := l, undo_stack := rest }
  | Command.Redo =>
    match s.redo_stack with
    | [] => s
    | l :: rest =>
      { s with undo_stack := s.line :: s.undo_stack, line := l, redo_stack := rest }
  | Command.TryCompleteFilename => s
  | Command.DisplayCompletionCandidate => s
  | Command.CdToParent => { s with outcome := some (ReadOutcome.CdCmd "cd ..".toList) }
  | Command.CdUndo => { s with outcome := some (ReadOutcome.CdCmd "cd -".toList) }
  | Command.CdRedo => { s with outcome := some (ReadOutcome.CdCmd "cd +".toList) }
  | Command.DuplicateWord => { s with line := s.line.duplicate_current_word }

/-- Drain the command queue: each command is applied, a Commit or cd
command or a panic stops the drain (the source breaks or returns before
the cursor fix), and otherwise the cursor is clamped whenever the mode is
not an insert-like mode. -/
def runCommands (s : EditorState) : List Command → EditorState
  | [] => s
  | c :: rest =>
    let s1 := applyCommand s c
    if s1.outcome.isSome || s1.panicked then s1
    else
      let s2 :=
        if s1.mode.is_insert then s1
        else { s1 with line := s1.line.normal_mode_fix_cursor }
      runCommands s2 rest

def dispatchEvent (s : EditorState) (ev : Event) : Mode × List Command :=
  match s.mode with
  | Mode.Insert => insertProcessEvent ev
  | Mode.Normal combo lf => normalProcessEvent combo lf ev s.line
  | Mode.Visual origin combo => visualProcessEvent origin combo ev s.line
  | Mode.Search q => searchProcessEvent q ev

/-- One keystroke: Ctrl-C aborts in any mode; Ctrl-D on an empty line
exits; otherwise the current mode translates the event into commands which
are drained immediately. -/
def processEvent (s : EditorState) (ev : Event) : EditorState :=
  if s.outcome.isSome || s.panicked then s
  else if ev = Event.Ctrl 'c' then { s with outcome := some ReadOutcome.Aborted }
  else if ev = Event.Ctrl 'd' ∧ s.line.len = 0 then
    { s with outcome := some ReadOutcome.Exited }
  else
    let md := dispatchEvent s ev
    runCommands { s with mode := md.1 } md.2

def processKeys (s : EditorState) (evs : List Event) : EditorState :=
  evs.foldl processEvent s

/-- The state at the top of read_line for a fresh editor: insert mode, an
empty buffer (also pushed as the initial undo snapshot, since the mode is
insert-like), empty registers and history. -/
def initialEditorState : EditorState :=
  { mode := Mode.Insert
    line := Line.new
    undo_stack := [Line.new]
    redo_stack := []
    registers := []
    line_history := []
    history_search_start_idx := 0
    outcome := none
    panicked := false }

/-! ## Claim C8: the h i ESC b d w Enter scenario -/

/-- C8 counterexample: feeding the editor h, i, Escape, b, d, w, Enter from
an empty buffer does NOT commit anything: the d opens a combo, the w makes
it an incomplete two-character text-object prefix (a full combo is d plus a
two-character selector+object, such as d i w), and the Enter is consumed by
the combo machinery, which merely clears the pending combo.  The buffer
still holds the word hi and read_line keeps editing. -/
theorem dw_enter_commits_nothing_cex :
    (processKeys initialEditorState
        [Event.Char 'h', Event.Char 'i', Event.KeyEscape, Event.Char 'b',
          Event.Char 'd', Event.Char 'w', Event.KeyReturn]).outcome = none ∧
      (processKeys initialEditorState
        [Event.Char 'h', Event.Char 'i', Event.KeyEscape, Event.Char 'b',
          Event.Char 'd', Event.Char 'w', Event.KeyReturn]).line.toText =
        ['h', 'i'] := by
  decide

/-- C8 amended: with the full text-object combo — h, i, Escape, b, d, i, w,
Enter — the word hi is deleted by d i w and the Enter commits the then-empty
line. -/
theorem diw_enter_commits_empty :
    (processKeys initialEditorState
        [Event.Char 'h', Event.Char 'i', Event.KeyEscape, Event.Char 'b',
          Event.Char 'd', Event.Char 'i', Event.Char 'w', Event.KeyReturn]).outcome =
      some (ReadOutcome.Committed []) := by
  decide

/-! ## Claim C10: HistorySearch with reset on an empty history -/

/-- C10: processing a HistorySearch command with reset is total exactly
when the committed-line history is non-empty; with an empty history the
start index, computed as the history length minus one in usize arithmetic,
wraps, and the handler aborts on the out-of-range slice index instead of
reaching the fallback that replaces the line with the query text. -/
theorem historySearch_reset_total_iff (history : List (List Char))
    (startIdx : Nat) (query : List Char) (hlen : history.length < USIZE_MOD) :
    (historySearchStep history startIdx query true).isSome = true ↔ history ≠ [] := by
  unfold historySearchStep
  cases history with
  | nil =>
    have hidx : ((List.length ([] : List (List Char))) + (USIZE_MOD - 1)) % USIZE_MOD =
        USIZE_MOD - 1 := by
      simp only [List.length_nil, Nat.zero_add]
      exact Nat.mod_eq_of_lt (by norm_num [USIZE_MOD])
    simp only [if_true, hidx, List.length_nil]
    rw [if_neg (by norm_num [USIZE_MOD])]
    simp
  | cons h t =>
    have hlt : t.length < USIZE_MOD := by
      simp only [List.length_cons] at hlen
      omega
    have hidx : ((h :: t).length + (USIZE_MOD - 1)) % USIZE_MOD = t.length := by
      have h1 : (h :: t).length + (USIZE_MOD - 1) = t.length + USIZE_MOD := by
        have hM : 1 ≤ USIZE_MOD := by norm_num [USIZE_MOD]
        simp only [List.length_cons]
        omega
      rw [h1, Nat.add_mod_right]
      exact Nat.mod_eq_of_lt hlt
    simp only [if_true, hidx]
    rw [if_pos (by simp only [List.length_cons]; omega)]
    have hne : (h :: t) ≠ ([] : List (List Char)) := by simp
    simp only [ne_eq, hne, not_false_eq_true, iff_true]
    split
    · rfl
    · split
      · rfl
      · rfl

/-- Witness for historySearch_reset_total_iff: on a one-line history the
reset search returns a result. -/
theorem historySearch_reset_total_iff_witness :
    (historySearchStep [['a']] 0 ['a'] true).isSome = true :=
  (historySearch_reset_total_iff [['a']] 0 ['a']
    (by norm_num [USIZE_MOD])).mpr (by decide)

/-! ## Claim C7: undo and redo around a checkpoint -/

/-- The commands whose handler only rewrites the current line buffer:
cursor motions, insertions, deletions, register pastes and word
duplication. -/
def isBufMutation : Command → Bool
  | Command.CursorPrevChar => true
  | Command.CursorPrevCharMatch _ => true
  | Command.CursorNextChar => true
  | Command.CursorNextCharMatch _ => true
  | Command.CursorPrevWordHead => true
  | Command.CursorPrevWordHeadWide => true
  | Command.CursorNextWordHead => true
  | Command.CursorNextWordHeadWide => true
  | Command.CursorNextWordEnd => true
  | Command.CursorNextWordEndWide => true
  | Command.CursorEnd => true
  | Command.CursorBegin => true
  | Command.CursorExact _ => true
  | Command.DeletePrevChar => true
  | Command.DeleteNextChar => true
  | Command.DeletePrevWord => true
  | Command.DeleteLine => true
  | Command.DeleteRange _ _ => true
  | Command.Insert _ => true
  | Command.RegisterPastePrev _ => true
  | Command.RegisterPasteNext _ => true
  | Command.DuplicateWord => true
  | _ => false

theorem mutation_only_line (s : EditorState) (c : Command)
    (h : isBufMutation c = true) :
    (applyCommand s c).mode = s.mode ∧
      (applyCommand s c).undo_stack = s.undo_stack ∧
      (applyCommand s c).redo_stack = s.redo_stack ∧
      (applyCommand s c).outcome = s.outcome ∧
      (applyCommand s c).panicked = s.panicked := by
  cases c <;> simp [isBufMutation] at h <;>
    first
      | (simp [applyCommand]; done)
      | (simp only [applyCommand]; split <;> simp)

theorem normal_mode_fix_cursor_idem (l : Line) :
    l.normal_mode_fix_cursor.normal_mode_fix_cursor = l.normal_mode_fix_cursor := by
  rcases l with ⟨buf, cur⟩
  simp only [Line.normal_mode_fix_cursor, Line.len]
  split
  · split <;> rfl
  · rfl

theorem runCommands_mutations (ms : List Command) (s : EditorState)
    (hm : ∀ m ∈ ms, isBufMutation m = true)
    (houtcome : s.outcome = none) (hpanic : s.panicked = false)
    (hline : s.mode.is_insert = false →
      s.line.normal_mode_fix_cursor = s.line) :
    (runCommands s ms).mode = s.mode ∧
      (runCommands s ms).undo_stack = s.undo_stack ∧
      (runCommands s ms).redo_stack = s.redo_stack ∧
      (runCommands s ms).outcome = none ∧
      (runCommands s ms).panicked = false ∧
      ((runCommands s ms).mode.is_insert = false →
        (runCommands s ms).line.normal_mode_fix_cursor = (runCommands s ms).line) := by
  induction ms generalizing s with
  | nil => exact ⟨rfl, rfl, rfl, houtcome, hpanic, hline⟩
  | cons c rest ih =>
    have hc : isBufMutation c = true := hm c (by simp)
    have hrest : ∀ m ∈ rest, isBufMutation m = true :=
      fun m hm' => hm m (by simp [hm'])
    obtain ⟨h1, h2, h3, h4, h5⟩ := mutation_only_line s c hc
    have hcond : ((applyCommand s c).outcome.isSome || (applyCommand s c).panicked) =
        false := by
      rw [h4, h5, houtcome, hpanic]
      rfl
    rw [runCommands, if_neg (by rw [hcond]; exact Bool.false_ne_true)]
    by_cases hmode : (applyCommand s c).mode.is_insert = true
    · rw [if_pos hmode]
      have := ih (applyCommand s c) hrest (h4.trans houtcome) (h5.trans hpanic)
        (fun hni => absurd hmode (by rw [hni]; exact Bool.false_ne_true))
      exact ⟨this.1.trans h1, this.2.1.trans h2, this.2.2.1.trans h3,
        this.2.2.2.1, this.2.2.2.2.1, this.2.2.2.2.2⟩
    · rw [if_neg hmode]
      have := ih { applyCommand s c with
          line := (applyCommand s c).line.normal_mode_fix_cursor }
        hrest (h4.trans houtcome) (h5.trans hpanic)
        (fun _ => normal_mode_fix_cursor_idem _)
      exact ⟨this.1.trans h1, this.2.1.trans h2, this.2.2.1.trans h3,
        this.2.2.2.1, this.2.2.2.2.1, this.2.2.2.2.2⟩

/-- C7: after a MakeCheckPoint and any sequence of line-buffer mutation
commands, Undo restores the line to the snapshot the checkpoint pushed,
and an immediately following Redo restores the line to its contents just
before the Undo.  The hypotheses say the editor is mid-read (nothing
committed, no panic) and, in a non-insert mode, the cursor is already
clamped — which the driver itself maintains after every command. -/
theorem undo_restores_checkpoint (s : EditorState) (ms : List Command)
    (hm : ∀ m ∈ ms, isBufMutation m = true)
    (houtcome : s.outcome = none) (hpanic : s.panicked = false)
    (hfix : s.mode.is_insert = false →
      s.line.normal_mode_fix_cursor = s.line) :
    ((runCommands (runCommands (runCommands s [Command.MakeCheckPoint]) ms)
        [Command.Undo]).line = s.line) ∧
      ((runCommands (runCommands (runCommands (runCommands s
            [Command.MakeCheckPoint]) ms) [Command.Undo]) [Command.Redo]).line =
        (runCommands (runCommands s [Command.MakeCheckPoint]) ms).line) := by
  have hs1 : runCommands s [Command.MakeCheckPoint] =
      { s with undo_stack := s.line :: s.undo_stack, redo_stack := [] } := by
    rw [runCommands]
    rw [if_neg (by simp only [applyCommand, houtcome, hpanic]; simp)]
    by_cases hmode : s.mode.is_insert = true
    · rw [if_pos (by simp only [applyCommand]; exact hmode)]
      rfl
    · rw [if_neg (by simp only [applyCommand]; exact hmode)]
      rw [runCommands]
      simp only [applyCommand]
      rw [hfix (Bool.eq_false_iff.mpr hmode)]
  set s1 := runCommands s [Command.MakeCheckPoint] with hs1def
  have hm1 : s1.mode = s.mode := by rw [hs1]
  have hl1 : s1.line = s.line := by rw [hs1]
  have hu1 : s1.undo_stack = s.line :: s.undo_stack := by rw [hs1]
  have ho1 : s1.outcome = none := by rw [hs1]; exact houtcome
  have hp1 : s1.panicked = false := by rw [hs1]; exact hpanic
  obtain ⟨hm2, hu2, hr2, ho2, hp2, hfix2⟩ := runCommands_mutations ms s1 hm ho1 hp1
    (by rw [hm1, hl1]; exact hfix)
  set s2 := runCommands s1 ms with hs2def
  have hs3 : runCommands s2 [Command.Undo] =
      { s2 with redo_stack := s2.line :: s2.redo_stack
                line := s.line
                undo_stack := s.undo_stack } := by
    have happ : applyCommand s2 Command.Undo =
        { s2 with redo_stack := s2.line :: s2.redo_stack
                  line := s.line
                  undo_stack := s.undo_stack } := by
      simp only [applyCommand]
      rw [hu2, hu1]
    rw [runCommands, happ]
    rw [if_neg (by simp [ho2, hp2])]
    by_cases hmode : s2.mode.is_insert = true
    · rw [if_pos hmode]
      rfl
    · rw [if_neg hmode]
      rw [runCommands]
      have : s.mode.is_insert = false := by
        rw [← hm1, ← hm2]
        exact Bool.eq_false_iff.mpr hmode
      simp only
      rw [hfix this]
  constructor
  · rw [hs3]
  · rw [hs3]
    have happ4 : applyCommand { s2 with redo_stack := s2.line :: s2.redo_stack
                                        line := s.line
                                        undo_stack := s.undo_stack } Command.Redo =
        { s2 with redo_stack := s2.redo_stack
                  line := s2.line
                  undo_stack := s.line :: s.undo_stack } := by
      simp only [applyCommand]
    rw [runCommands, happ4]
    rw [if_neg (by simp [ho2, hp2])]
    by_cases hmode : s2.mode.is_insert = true
    · rw [if_pos hmode]
      rfl
    · rw [if_neg hmode]
      rw [runCommands]
      simp only
      rw [hfix2 (Bool.eq_false_iff.mpr hmode)]

/-- Witness for undo_restores_checkpoint: from the fresh editor, a
checkpoint, one insertion, an Undo and a Redo behave as stated. -/
theorem undo_restores_checkpoint_witness :
    ((runCommands (runCommands (runCommands initialEditorState
        [Command.MakeCheckPoint]) [Command.Insert 'a']) [Command.Undo]).line =
      initialEditorState.line) ∧
      ((runCommands (runCommands (runCommands (runCommands initialEditorState
          [Command.MakeCheckPoint]) [Command.Insert 'a']) [Command.Undo])
          [Command.Redo]).line =
        (runCommands (runCommands initialEditorState [Command.MakeCheckPoint])
          [Command.Insert 'a']).line) :=
  undo_restores_checkpoint initialEditorState [Command.Insert 'a']
    (by decide) rfl rfl (by decide)

end Shell
